import Mathlib

/-!
Verification of the ASSHM persistence core (session repository, config
store, IPAM repository, subnet scanner) against its natural-language
specification.  Python dictionaries are modelled as insertion-ordered
association lists, raised exceptions as an explicit error result, file
writes as an explicit `disk` snapshot carried in each repository state.
-/

namespace ASSHM

/-! ## Insertion-ordered dictionaries (Python `dict` model) -/

variable {κ : Type} {α : Type} [DecidableEq κ]

/-- `d.get(k)` / `d[k]` lookup: first binding for the key. -/
def dlookup (k : κ) : List (κ × α) → Option α
  | [] => none
  | p :: rest => if p.1 = k then some p.2 else dlookup k rest

/-- `d[k] = v`: replace the binding in place if the key is present
(keeping its position), otherwise append a new binding. -/
def dset (k : κ) (v : α) : List (κ × α) → List (κ × α)
  | [] => [(k, v)]
  | p :: rest => if p.1 = k then (k, v) :: rest else p :: dset k v rest

/-- `d.pop(k)`: remove the binding for the key. -/
def dremove (k : κ) (l : List (κ × α)) : List (κ × α) :=
  l.filter (fun p => p.1 ≠ k)

theorem dlookup_nil (k : κ) : dlookup k ([] : List (κ × α)) = none := rfl

theorem dlookup_cons (k : κ) (p : κ × α) (rest : List (κ × α)) :
    dlookup k (p :: rest) = if p.1 = k then some p.2 else dlookup k rest := rfl

theorem dlookup_dset_self (k : κ) (v : α) (l : List (κ × α)) :
    dlookup k (dset k v l) = some v := by
  induction l with
  | nil => simp [dset, dlookup]
  | cons p rest ih =>
    by_cases h : p.1 = k
    · simp [dset, h, dlookup]
    · simp [dset, h, dlookup, ih]

theorem dlookup_dset_ne (k k' : κ) (v : α) (l : List (κ × α)) (h : k' ≠ k) :
    dlookup k (dset k' v l) = dlookup k l := by
  induction l with
  | nil => simp [dset, dlookup, h]
  | cons p rest ih =>
    by_cases hp : p.1 = k'
    · simp [dset, hp, dlookup, h, hp.symm ▸ h]
    · simp only [dset, hp, if_false, dlookup]
      by_cases hk : p.1 = k
      · simp [hk]
      · simp [hk, ih]

theorem dlookup_append (k : κ) (l₁ l₂ : List (κ × α)) :
    dlookup k (l₁ ++ l₂) =
      match dlookup k l₁ with
      | some v => some v
      | none => dlookup k l₂ := by
  induction l₁ with
  | nil => simp [dlookup]
  | cons p rest ih =>
    by_cases h : p.1 = k
    · simp [dlookup, h]
    · simp [dlookup, h, ih]

/-! ## Session model (`src/core/session_manager.py`) -/

/-- Python `str.strip()`: remove leading and trailing whitespace.
(Modelled over the four ASCII whitespace characters recognised by
`Char.isWhitespace`.) -/
def pyStrip (s : String) : String :=
  ⟨((s.data.dropWhile Char.isWhitespace).reverse.dropWhile Char.isWhitespace).reverse⟩

/-- A single connection profile, mirroring `Session.__init__`. -/
structure Session where
  name : String
  host : String
  username : String := ""
  password : String := ""
  group : String := ""
  tags : List String := []
  description : String := ""
  last_connection : Option String := none
  connection_count : Nat := 0
  key_file : String := ""
  params : String := ""
  deriving Repr, DecidableEq

/-- State owned by `SessionManager`: the in-memory name-keyed mapping and
the persisted session-file content (the list of serialized sessions, in
mapping order).  `disk = none` models a session file that does not exist.
Backup rotation is modelled separately (see `BackupState`). -/
structure SMState where
  sessions : List (String × Session)
  disk : Option (List Session)
  deriving Repr, DecidableEq

/-- A fresh manager with no stored sessions and no session file. -/
def SMState.empty : SMState := ⟨[], none⟩

/-- `save_sessions`: writes the values of the mapping to the session file. -/
def saveSessions (st : SMState) : SMState :=
  { st with disk := some (st.sessions.map (·.2)) }

/-- `add_session`: rejects an empty/whitespace name, rejects a duplicate
name, otherwise inserts under the session's own name and persists.
A raised `ValueError` is modelled as `Except.error` with the state
returned unchanged. -/
def addSession (s : Session) (st : SMState) : SMState × Except String Bool :=
  if pyStrip s.name = "" then
    (st, .error "Session name cannot be empty")
  else if (dlookup s.name st.sessions).isSome then
    (st, .error "Session with this name already exists")
  else
    (saveSessions { st with sessions := dset s.name s st.sessions }, .ok true)

/-- `update_session`: rejects an empty/whitespace name, rejects an absent
name, otherwise replaces the stored session under its name and persists. -/
def updateSession (s : Session) (st : SMState) : SMState × Except String Bool :=
  if pyStrip s.name = "" then
    (st, .error "Session name cannot be empty")
  else if (dlookup s.name st.sessions).isSome then
    (saveSessions { st with sessions := dset s.name s st.sessions }, .ok true)
  else
    (st, .error "Session not found")

/-- `delete_session`: rejects an absent name, otherwise removes the
binding and persists. -/
def deleteSession (name : String) (st : SMState) : SMState × Except String Bool :=
  if (dlookup name st.sessions).isSome then
    (saveSessions { st with sessions := dremove name st.sessions }, .ok true)
  else
    (st, .error "Session not found")

/-- `get_session`: keyed lookup, `None` when absent. -/
def getSession (name : String) (st : SMState) : Option Session :=
  dlookup name st.sessions

/-- `update_connection_stats`: when the name is present, set
`last_connection` to the current time, increment `connection_count` by
one and persist; silently do nothing otherwise.  `now` is the caller's
clock reading (`datetime.now().isoformat()`). -/
def updateConnectionStats (now : String) (name : String) (st : SMState) : SMState :=
  match dlookup name st.sessions with
  | some s =>
      let s' := { s with last_connection := some now,
                         connection_count := s.connection_count + 1 }
      saveSessions { st with sessions := dset name s' st.sessions }
  | none => st

/-- C1: For every session `S` whose name is non-empty after stripping
whitespace and not already present, `add(S)` followed by `get(S.name)`
returns exactly `S` (and the repository is persisted); `add(S)` on an
already-present name fails with a raised error and leaves the whole
repository state — the stored session included — unchanged. -/
theorem add_then_get_and_duplicate_add (s : Session) (st : SMState)
    (hname : pyStrip s.name ≠ "") :
    (dlookup s.name st.sessions = none →
      (addSession s st).2 = .ok true ∧
      getSession s.name (addSession s st).1 = some s) ∧
    (∀ s₀ : Session, dlookup s.name st.sessions = some s₀ →
      (∃ msg, (addSession s st).2 = .error msg) ∧
      (addSession s st).1 = st ∧
      getSession s.name (addSession s st).1 = some s₀) := by
  constructor
  · intro habs
    constructor
    · simp [addSession, hname, habs]
    · simp [addSession, hname, habs, getSession, saveSessions, dlookup_dset_self]
  · intro s₀ hpres
    have hsome : (dlookup s.name st.sessions).isSome = true := by
      simp [hpres]
    refine ⟨⟨"Session with this name already exists", ?_⟩, ?_, ?_⟩
    · simp [addSession, hname, hsome]
    · simp [addSession, hname, hsome]
    · simp [addSession, hname, hsome, getSession, hpres]

/-- Witness for C1 at a concrete session and the empty repository, and at
a repository already holding that name. -/
theorem add_then_get_and_duplicate_add_witness :
    let s : Session := { name := "web1", host := "10.0.0.1" }
    let st₀ : SMState := SMState.empty
    let st₁ : SMState := ⟨[("web1", s)], none⟩
    ((addSession s st₀).2 = .ok true ∧
      getSession "web1" (addSession s st₀).1 = some s) ∧
    ((∃ msg, (addSession s st₁).2 = .error msg) ∧
      (addSession s st₁).1 = st₁ ∧
      getSession "web1" (addSession s st₁).1 = some s) := by
  refine ⟨?_, ?_⟩
  · have h := add_then_get_and_duplicate_add
      { name := "web1", host := "10.0.0.1" } SMState.empty (by decide)
    exact h.1 (by rfl)
  · have h := add_then_get_and_duplicate_add
      { name := "web1", host := "10.0.0.1" }
      ⟨[("web1", { name := "web1", host := "10.0.0.1" })], none⟩ (by decide)
    exact h.2 { name := "web1", host := "10.0.0.1" } (by rfl)

theorem dlookup_mem {k : κ} {v : α} {l : List (κ × α)}
    (h : dlookup k l = some v) : (k, v) ∈ l := by
  induction l with
  | nil => simp [dlookup] at h
  | cons p rest ih =>
    obtain ⟨a, b⟩ := p
    by_cases hp : a = k
    · subst hp
      simp [dlookup] at h
      subst h
      exact List.mem_cons_self _ _
    · simp [dlookup, hp] at h
      exact List.mem_cons_of_mem _ (ih h)

theorem mem_dset {k : κ} {v : α} {q : κ × α} {l : List (κ × α)}
    (h : q ∈ dset k v l) : q = (k, v) ∨ q ∈ l := by
  induction l with
  | nil => simp [dset] at h; simp [h]
  | cons p rest ih =>
    by_cases hp : p.1 = k
    · simp [dset, hp] at h
      rcases h with h | h
      · simp [h]
      · right; exact List.mem_cons_of_mem _ h
    · simp [dset, hp] at h
      rcases h with h | h
      · right; simp [h]
      · rcases ih h with h' | h'
        · simp [h']
        · right; exact List.mem_cons_of_mem _ h'

/-- `update_connection_stats` on a present name, as one equation. -/
theorem ucs_present (t name : String) (st : SMState) (s : Session)
    (hs : dlookup name st.sessions = some s) :
    updateConnectionStats t name st =
      saveSessions { st with
        sessions := dset name
          { s with last_connection := some t,
                   connection_count := s.connection_count + 1 } st.sessions } := by
  simp [updateConnectionStats, hs]

/-- C6: `record_connection` (source name `update_connection_stats`) on a
present name sets `last_connection` to the caller's current time,
increments `connection_count` by exactly one and persists the mapping;
two consecutive calls therefore add exactly 2 to `connection_count` and
leave `last_connection` at the second call's time; a call on an absent
name returns the state unchanged and raises nothing. -/
theorem record_connection_spec (name t₁ t₂ : String) (st : SMState) :
    (∀ s : Session, dlookup name st.sessions = some s →
      (getSession name (updateConnectionStats t₁ name st) =
        some { s with last_connection := some t₁,
                      connection_count := s.connection_count + 1 }) ∧
      (let st₂ := updateConnectionStats t₂ name (updateConnectionStats t₁ name st)
       getSession name st₂ =
          some { s with last_connection := some t₂,
                        connection_count := s.connection_count + 2 } ∧
       st₂.disk = some (st₂.sessions.map (·.2)))) ∧
    (dlookup name st.sessions = none → updateConnectionStats t₁ name st = st) := by
  constructor
  · intro s hs
    have h₁ : getSession name (updateConnectionStats t₁ name st) =
        some { s with last_connection := some t₁,
                      connection_count := s.connection_count + 1 } := by
      rw [ucs_present t₁ name st s hs]
      simp [getSession, saveSessions, dlookup_dset_self]
    have e₂ := ucs_present t₂ name (updateConnectionStats t₁ name st) _ h₁
    refine ⟨h₁, ?_, ?_⟩
    · rw [e₂]
      simp [getSession, saveSessions, dlookup_dset_self]
    · rw [e₂]
      simp [saveSessions]
  · intro habs
    simp [updateConnectionStats, habs]

/-- Witness for C6 at a concrete session and timestamps, plus the absent
name case on the empty repository. -/
theorem record_connection_spec_witness :
    let s : Session := { name := "db", host := "192.168.0.9" }
    let st : SMState := ⟨[("db", s)], none⟩
    (getSession "db"
        (updateConnectionStats "2025-01-02T08:00:01" "db"
          (updateConnectionStats "2025-01-01T08:00:00" "db" st)) =
      some { s with last_connection := some "2025-01-02T08:00:01",
                    connection_count := 2 }) ∧
    updateConnectionStats "2025-01-01T08:00:00" "nope" st = st := by
  constructor
  · exact ((record_connection_spec "db" "2025-01-01T08:00:00" "2025-01-02T08:00:01"
      ⟨[("db", { name := "db", host := "192.168.0.9" })], none⟩).1
      { name := "db", host := "192.168.0.9" } (by rfl)).2.1
  · exact (record_connection_spec "nope" "2025-01-01T08:00:00" "x"
      ⟨[("db", { name := "db", host := "192.168.0.9" })], none⟩).2 (by rfl)

/-! ## Reachable repository states (for the keying invariant) -/

/-- States reachable from a fresh repository through the four mutating
operations of `SessionManager`. -/
inductive ReachableSM : SMState → Prop
  | init : ReachableSM SMState.empty
  | add (s : Session) (st : SMState) :
      ReachableSM st → ReachableSM (addSession s st).1
  | update (s : Session) (st : SMState) :
      ReachableSM st → ReachableSM (updateSession s st).1
  | del (name : String) (st : SMState) :
      ReachableSM st → ReachableSM (deleteSession name st).1
  | record (t name : String) (st : SMState) :
      ReachableSM st → ReachableSM (updateConnectionStats t name st)

/-- Each stored session sits under its own name as key. -/
def KeyedByName (st : SMState) : Prop :=
  ∀ p ∈ st.sessions, p.2.name = p.1

theorem keyedByName_reachable {st : SMState} (h : ReachableSM st) :
    KeyedByName st := by
  induction h with
  | init => intro p hp; simp [SMState.empty] at hp
  | add s st _ ih =>
    by_cases h₁ : pyStrip s.name = ""
    · simpa [addSession, h₁] using ih
    · by_cases h₂ : (dlookup s.name st.sessions).isSome
      · simpa [addSession, h₁, h₂] using ih
      · intro p hp
        simp only [addSession, h₁, if_false, h₂, if_false, saveSessions] at hp
        rcases mem_dset hp with h' | h'
        · simp [h']
        · exact ih p h'
  | update s st _ ih =>
    by_cases h₁ : pyStrip s.name = ""
    · simpa [updateSession, h₁] using ih
    · by_cases h₂ : (dlookup s.name st.sessions).isSome
      · intro p hp
        simp only [updateSession, h₁, if_false, h₂, if_true, saveSessions] at hp
        rcases mem_dset hp with h' | h'
        · simp [h']
        · exact ih p h'
      · simpa [updateSession, h₁, h₂] using ih
  | del name st _ ih =>
    by_cases h₂ : (dlookup name st.sessions).isSome
    · intro p hp
      simp only [deleteSession, h₂, if_true, saveSessions, dremove] at hp
      exact ih p (List.mem_of_mem_filter hp)
    · simpa [deleteSession, h₂] using ih
  | record t name st _ ih =>
    cases hl : dlookup name st.sessions with
    | none => simpa [updateConnectionStats, hl] using ih
    | some s =>
      intro p hp
      simp only [updateConnectionStats, hl, saveSessions] at hp
      rcases mem_dset hp with h' | h'
      · have : s.name = name := ih (name, s) (dlookup_mem hl)
        simp [h', this]
      · exact ih p h'

/-- C10: in every repository state reachable through `add`, `update`,
`delete` and `record_connection`, each stored session is keyed under its
own name, so `get(n)` never returns a session whose name differs from
`n`. -/
theorem get_returns_matching_name {st : SMState} (h : ReachableSM st)
    (n : String) (s : Session) (hget : getSession n st = some s) :
    s.name = n :=
  keyedByName_reachable h (n, s) (dlookup_mem hget)

/-- Witness for C10: one `add` step from the fresh repository, then a
`get` of the added name. -/
theorem get_returns_matching_name_witness :
    ({ name := "app", host := "h" : Session }).name = "app" :=
  get_returns_matching_name
    (ReachableSM.add { name := "app", host := "h" } SMState.empty ReachableSM.init)
    "app" { name := "app", host := "h" } (by rfl)

/-! ## Backup rotation (`save_sessions` / `_create_backup`)

The `sessions_backup_YYYYMMDD_HHMMSS.json` filename pattern sorts
lexicographically in chronological order, so backup timestamps are
modelled as naturals and `sorted(...)` as sorting by `≤`. -/

/-- Whether the session file exists, and the timestamps of the backup
files currently in the backup directory. -/
structure BackupState where
  sessionFileExists : Bool
  backups : List Nat
  deriving Repr, DecidableEq

/-- `_create_backup`: a no-op when the session file does not exist;
otherwise copy the session file into the backup directory under the
current timestamp `ts`, list the backup files sorted by name, and when
more than `maxBackups` are present delete `backup_files[:-max_backups]`.
That Python slice is all but the last `max_backups` files when
`max_backups ≥ 1`, but `[:-0]` is the empty slice, so nothing is deleted
when `max_backups = 0`. -/
def createBackup (maxBackups ts : Nat) (st : BackupState) : BackupState :=
  if st.sessionFileExists then
    let files := List.insertionSort (· ≤ ·) (st.backups ++ [ts])
    let kept :=
      if files.length > maxBackups then
        files.drop (if maxBackups = 0 then 0 else files.length - maxBackups)
      else files
    { st with backups := kept }
  else st

/-- `save_sessions`: back up the current file, then (over)write the
session file. -/
def saveWithBackup (maxBackups ts : Nat) (st : BackupState) : BackupState :=
  { createBackup maxBackups ts st with sessionFileExists := true }

/-- A sequence of saves at the given timestamps. -/
def runSaves (maxBackups : Nat) (tss : List Nat) (st : BackupState) : BackupState :=
  tss.foldl (fun s t => saveWithBackup maxBackups t s) st

/-- The last `k` elements of a list. -/
def takeLast (k : Nat) (l : List α) : List α :=
  l.drop (l.length - k)

theorem length_takeLast (k : Nat) (l : List α) :
    (takeLast k l).length = min k l.length := by
  unfold takeLast
  rw [List.length_drop]
  omega

theorem takeLast_append_left (k : Nat) (A B : List α) :
    takeLast k (takeLast k A ++ B) = takeLast k (A ++ B) := by
  unfold takeLast
  have h1 : A.drop (A.length - k) ++ B = (A ++ B).drop (A.length - k) :=
    (List.drop_append_of_le_length (Nat.sub_le _ _)).symm
  rw [h1, List.drop_drop]
  congr 1
  rw [List.length_append, List.length_drop, List.length_append]
  omega

/-- For a positive retention count the pruning step keeps exactly the
most recent `maxBackups` files. -/
theorem prune_eq_takeLast {k : Nat} (hk : 1 ≤ k) (files : List Nat) :
    (if files.length > k then
      files.drop (if k = 0 then 0 else files.length - k)
    else files) = takeLast k files := by
  have hk0 : ¬ (k = 0) := by omega
  unfold takeLast
  by_cases h : files.length > k
  · simp [h, hk0]
  · have h0 : files.length - k = 0 := by omega
    simp [h, h0]

theorem saveWithBackup_exists_eq {k ts : Nat} (hk : 1 ≤ k) (bs : List Nat)
    (hs : List.Sorted (· ≤ ·) (bs ++ [ts])) :
    saveWithBackup k ts ⟨true, bs⟩ = ⟨true, takeLast k (bs ++ [ts])⟩ := by
  simp only [saveWithBackup, createBackup, if_true]
  rw [List.Sorted.insertionSort_eq hs, prune_eq_takeLast hk]

theorem runSaves_from_existing {k : Nat} (hk : 1 ≤ k) (us : List Nat) :
    ∀ bs : List Nat, bs.length ≤ k → List.Sorted (· < ·) (bs ++ us) →
      runSaves k us ⟨true, bs⟩ = ⟨true, takeLast k (bs ++ us)⟩ := by
  induction us with
  | nil =>
    intro bs hlen _
    have : bs.length - k = 0 := by omega
    simp [runSaves, takeLast, this]
  | cons t us' ih =>
    intro bs hlen hsort
    have hsub1 : (bs ++ [t]).Sublist (bs ++ t :: us') :=
      List.Sublist.append_left ((List.nil_sublist us').cons₂ t) bs
    have hsorted1 : List.Sorted (· ≤ ·) (bs ++ [t]) :=
      List.Pairwise.imp le_of_lt (List.Pairwise.sublist hsub1 hsort)
    have hstep : saveWithBackup k t ⟨true, bs⟩ = ⟨true, takeLast k (bs ++ [t])⟩ :=
      saveWithBackup_exists_eq hk bs hsorted1
    have hrun : runSaves k (t :: us') ⟨true, bs⟩ =
        runSaves k us' (saveWithBackup k t ⟨true, bs⟩) := rfl
    rw [hrun, hstep]
    have hlen' : (takeLast k (bs ++ [t])).length ≤ k := by
      rw [length_takeLast]; omega
    have hsub2 : (takeLast k (bs ++ [t]) ++ us').Sublist (bs ++ t :: us') := by
      have hdrop : (takeLast k (bs ++ [t])).Sublist (bs ++ [t]) :=
        List.drop_sublist _ _
      have := hdrop.append_right us'
      simpa using this
    have hsort' : List.Sorted (· < ·) (takeLast k (bs ++ [t]) ++ us') :=
      List.Pairwise.sublist hsub2 hsort
    rw [ih _ hlen' hsort', takeLast_append_left]
    congr 1
    simp

/-- C2 (amended): starting from a fresh repository (no session file, no
backups), after `N` saves at strictly increasing second-resolution
timestamps with retention count `k` where `1 ≤ k < N`, exactly `k`
backup files remain and they are the ones created by the `k` most recent
saves.  (The first save creates no backup because the session file does
not yet exist; with `max_backups = 0` the source deletes nothing, see
`backup_retention_zero_counterexample`.) -/
theorem backup_retention (k : Nat) (tss : List Nat) (hk : 1 ≤ k)
    (hkN : k < tss.length) (hsort : List.Sorted (· < ·) tss) :
    (runSaves k tss ⟨false, []⟩).backups = tss.drop (tss.length - k) ∧
    (runSaves k tss ⟨false, []⟩).backups.length = k := by
  cases tss with
  | nil => simp at hkN
  | cons t rest =>
    have hfirst : saveWithBackup k t ⟨false, []⟩ = ⟨true, []⟩ := by
      simp [saveWithBackup, createBackup]
    have hrun : runSaves k (t :: rest) ⟨false, []⟩ =
        runSaves k rest (saveWithBackup k t ⟨false, []⟩) := rfl
    have hsort' : List.Sorted (· < ·) (([] : List Nat) ++ rest) := by
      simpa using hsort.of_cons
    rw [hrun, hfirst, runSaves_from_existing hk rest [] (by simp) hsort']
    have hkr : k ≤ rest.length := by
      simp at hkN; omega
    constructor
    · show takeLast k ([] ++ rest) = (t :: rest).drop ((t :: rest).length - k)
      simp only [List.nil_append, takeLast]
      have : (t :: rest).length - k = (rest.length - k) + 1 := by
        simp; omega
      rw [this, List.drop_succ_cons]
    · show (takeLast k ([] ++ rest)).length = k
      rw [length_takeLast]
      simp
      omega

/-- Witness for C2 at `k = 2` and five saves. -/
theorem backup_retention_witness :
    (runSaves 2 [10, 11, 12, 13, 14] ⟨false, []⟩).backups = [13, 14] ∧
    (runSaves 2 [10, 11, 12, 13, 14] ⟨false, []⟩).backups.length = 2 := by
  have h := backup_retention 2 [10, 11, 12, 13, 14] (by decide) (by decide)
    (by decide)
  simpa using h

/-- Counterexample to C2 as stated: with retention count `k = 0` and
`N = 2` saves the claim demands that no backup file remain, but the
source's pruning slice `backup_files[:-0]` is empty, so the one backup
created by the second save survives. -/
theorem backup_retention_zero_counterexample :
    (runSaves 0 [1, 2] ⟨false, []⟩).backups = [2] ∧
    ¬ ((runSaves 0 [1, 2] ⟨false, []⟩).backups.length = 0) := by
  constructor
  · rfl
  · decide

/-! ## ConfigStore (`src/core/config_manager.py`) -/

/-- A JSON-like configuration value: a scalar or a nested object
(Python dictionary), as handled by `_merge_configs`. -/
inductive CVal where
  | str (s : String)
  | boolean (b : Bool)
  | num (n : Int)
  | null
  | obj (fields : List (String × CVal))

mutual

/-- `_merge_configs(target, source)`, split at one key: when the key is
present in the target and both the stored value and the source value are
dictionaries, merge recursively; otherwise the source value wins. -/
def mergeAt : Option CVal → CVal → CVal
  | some (.obj tf), .obj sf => .obj (mergeConfigs tf sf)
  | _, v => v
termination_by _ v => sizeOf v

/-- `_merge_configs(target, source)`: for each key of the source, update
the target binding at that key through `mergeAt`. -/
def mergeConfigs : List (String × CVal) → List (String × CVal) → List (String × CVal)
  | t, [] => t
  | t, (k, v) :: rest => mergeConfigs (dset k (mergeAt (dlookup k t) v) t) rest
termination_by _ l => sizeOf l

end

theorem mergeConfigs_nil (t : List (String × CVal)) : mergeConfigs t [] = t := by
  rw [mergeConfigs]

theorem mergeConfigs_cons (t : List (String × CVal)) (k : String) (v : CVal)
    (rest : List (String × CVal)) :
    mergeConfigs t ((k, v) :: rest) =
      mergeConfigs (dset k (mergeAt (dlookup k t) v) t) rest := by
  rw [mergeConfigs]

/-- `ConfigManager.load`: when the config file exists and parses, merge
its content into the in-memory defaults; otherwise keep the defaults. -/
def loadConfig (defaults : List (String × CVal))
    (file : Option (List (String × CVal))) : List (String × CVal) :=
  match file with
  | some loaded => mergeConfigs defaults loaded
  | none => defaults

theorem dlookup_eq_none_of_not_mem {k : κ} {l : List (κ × α)}
    (h : k ∉ l.map Prod.fst) : dlookup k l = none := by
  induction l with
  | nil => rfl
  | cons p rest ih =>
    rw [List.map_cons, List.mem_cons, not_or] at h
    have h1 : ¬ p.1 = k := fun he => h.1 he.symm
    simp [dlookup, h1, ih h.2]

/-- The recursive-overlay result at one key: a key absent from the file
keeps the default, a key present in the file overlays through
`mergeAt`. -/
def overlayAt (tv sv : Option CVal) : Option CVal :=
  match sv with
  | none => tv
  | some v => some (mergeAt tv v)

/-- C7: `load` merges the stored file into the in-memory defaults by
recursive key-wise overlay: for every key, if both sides hold mappings
they are merged recursively; otherwise a stored value replaces the
default; a key only in the defaults keeps its default value; a key only
in the file is added.  (The stored file comes from `json.load`, hence
has no duplicate keys.) -/
theorem config_load_overlay (defaults s : List (String × CVal))
    (hs : (s.map Prod.fst).Nodup) (k : String) :
    dlookup k (loadConfig defaults (some s)) =
      overlayAt (dlookup k defaults) (dlookup k s) := by
  show dlookup k (mergeConfigs defaults s) = _
  induction s generalizing defaults with
  | nil => rw [mergeConfigs_nil]; rfl
  | cons p rest ih =>
    obtain ⟨k₀, v₀⟩ := p
    rw [List.map_cons, List.nodup_cons] at hs
    rw [mergeConfigs_cons, ih _ hs.2]
    by_cases hk : k₀ = k
    · subst hk
      have hnone : dlookup k₀ rest = none :=
        dlookup_eq_none_of_not_mem hs.1
      rw [hnone, dlookup_dset_self]
      rw [show dlookup k₀ ((k₀, v₀) :: rest) = some v₀ by simp [dlookup]]
      rfl
    · rw [dlookup_dset_ne _ _ _ _ hk]
      rw [show dlookup k ((k₀, v₀) :: rest) = dlookup k rest by
        simp [dlookup, hk]]

/-- Witness for C7 on concrete defaults and file: the shared section is
merged recursively (stored scalar wins, default-only key kept,
file-only key added). -/
theorem config_load_overlay_witness :
    dlookup "ui" (loadConfig
      [("general", CVal.obj [("save_passwords", CVal.boolean true)]),
       ("ui", CVal.obj [("font_size", CVal.num 10),
                        ("theme", CVal.str "system")])]
      (some [("ui", CVal.obj [("font_size", CVal.num 12),
                              ("accent", CVal.str "blue")]),
             ("extra", CVal.str "e")])) =
      some (CVal.obj [("font_size", CVal.num 12),
                      ("theme", CVal.str "system"),
                      ("accent", CVal.str "blue")]) := by
  rw [config_load_overlay
    [("general", CVal.obj [("save_passwords", CVal.boolean true)]),
     ("ui", CVal.obj [("font_size", CVal.num 10),
                      ("theme", CVal.str "system")])]
    [("ui", CVal.obj [("font_size", CVal.num 12),
                      ("accent", CVal.str "blue")]),
     ("extra", CVal.str "e")]
    (by decide) "ui"]
  simp [overlayAt, mergeAt, mergeConfigs_cons, mergeConfigs_nil, dset, dlookup]

/-! ## IP address model (`ipaddress` stdlib as used by `src/core/ipam.py`)

`ipaddress.ip_network` / `ip_address` string handling is modelled for
IPv4 dotted-quad notation and IPv6 hex-group notation (without the
embedded-IPv4 tail form); addresses are integers, networks an integer
base plus prefix length. -/

/-- Split a character list at every occurrence of a separator character
(same semantics as `str.split(sep)` on the separators `ipaddress`
uses). -/
def splitOnChar (sep : Char) : List Char → List (List Char)
  | [] => [[]]
  | c :: rest =>
    if c = sep then [] :: splitOnChar sep rest
    else
      match splitOnChar sep rest with
      | [] => [[c]]
      | g :: gs => (c :: g) :: gs

def strSplitOnChar (sep : Char) (s : String) : List String :=
  (splitOnChar sep s.data).map (fun cs => ⟨cs⟩)

/-- Split at every occurrence of `::` (leftmost-greedy). -/
def splitDoubleColon : List Char → List (List Char)
  | [] => [[]]
  | [c] => [[c]]
  | ':' :: ':' :: rest => [] :: splitDoubleColon rest
  | c :: c' :: rest =>
    match splitDoubleColon (c' :: rest) with
    | [] => [[c]]
    | g :: gs => (c :: g) :: gs

/-- One decimal octet: 1–3 digits, no leading zero (as in modern
`ipaddress`), value ≤ 255. -/
def parseOctet (s : String) : Option Nat :=
  match s.data with
  | [] => none
  | c :: cs =>
    if (c :: cs).all Char.isDigit ∧ cs.length ≤ 2 ∧ (cs.isEmpty ∨ c ≠ '0') then
      let n := (c :: cs).foldl (fun a ch => a * 10 + (ch.toNat - 48)) 0
      if n ≤ 255 then some n else none
    else none

/-- `ipaddress.IPv4Address(s)`: four octets joined by dots, as one
integer. -/
def parseIPv4Address (s : String) : Option Nat :=
  match (strSplitOnChar '.' s).mapM parseOctet with
  | some [a, b, c, d] => some (((a * 256 + b) * 256 + c) * 256 + d)
  | _ => none

/-- A non-negative decimal number (for prefix lengths). -/
def parseDecimal (s : String) : Option Nat :=
  match s.data with
  | [] => none
  | cs =>
    if cs.all Char.isDigit then
      some (cs.foldl (fun a ch => a * 10 + (ch.toNat - 48)) 0)
    else none

/-- One 16-bit hex group: 1–4 hex digits. -/
def parseHexGroup (s : String) : Option Nat :=
  match s.data with
  | [] => none
  | cs =>
    if cs.all (fun c => c.isDigit ∨ ('a' ≤ c ∧ c ≤ 'f') ∨ ('A' ≤ c ∧ c ≤ 'F')) ∧ cs.length ≤ 4 then
      some (cs.foldl (fun a ch =>
        a * 16 + (if ch.isDigit then ch.toNat - 48
                  else if 'a' ≤ ch then ch.toNat - 87 else ch.toNat - 55)) 0)
    else none

/-- `ipaddress.IPv6Address(s)`: 8 hex groups, or two group runs joined
by one `::` standing for the missing zero groups. -/
def parseIPv6Address (s : String) : Option Nat :=
  let combine : List Nat → Nat := fun gs => gs.foldl (fun a g => a * 65536 + g) 0
  match (splitDoubleColon s.data).map (fun cs => (⟨cs⟩ : String)) with
  | [one] =>
    match (strSplitOnChar ':' one).mapM parseHexGroup with
    | some gs => if gs.length = 8 then some (combine gs) else none
    | none => none
  | [l, r] =>
    let ls := if l = "" then [] else strSplitOnChar ':' l
    let rs := if r = "" then [] else strSplitOnChar ':' r
    match ls.mapM parseHexGroup, rs.mapM parseHexGroup with
    | some gl, some gr =>
      if gl.length + gr.length ≤ 7 then
        some (combine (gl ++ List.replicate (8 - gl.length - gr.length) 0 ++ gr))
      else none
    | _, _ => none
  | _ => none

/-- `ipaddress.ip_address(s)`: try IPv4, then IPv6; result is
(version, integer address). -/
def parseIPAddress (s : String) : Option (Nat × Nat) :=
  match parseIPv4Address s with
  | some a => some (4, a)
  | none => (parseIPv6Address s).map (fun a => (6, a))

/-- A parsed network: version (4 or 6), base address (host bits zero)
and prefix length. -/
structure IPNetwork where
  version : Nat
  base : Nat
  prefixLen : Nat
  deriving Repr, DecidableEq

def IPNetwork.bits (n : IPNetwork) : Nat := if n.version = 4 then 32 else 128

/-- `network.num_addresses`. -/
def IPNetwork.numAddresses (n : IPNetwork) : Nat := 2 ^ (n.bits - n.prefixLen)

/-- `ipaddress.ip_network(s, strict=False)`: address with optional
`/prefix`; host bits are masked off (strict=False). -/
def parseNetwork (s : String) : Option IPNetwork :=
  match strSplitOnChar '/' s with
  | [addr] =>
    match parseIPAddress addr with
    | some (4, a) => some ⟨4, a, 32⟩
    | some (_, a) => some ⟨6, a, 128⟩
    | none => none
  | [addr, p] =>
    match parseIPAddress addr, parseDecimal p with
    | some (v, a), some pl =>
      let bits := if v = 4 then 32 else 128
      if pl ≤ bits then
        some ⟨v, a - a % 2 ^ (bits - pl), pl⟩
      else none
    | _, _ => none
  | _ => none

/-- Render one IPv4 address in dotted-quad form. -/
def ipv4ToString (a : Nat) : String :=
  Nat.repr (a / 16777216 % 256) ++ "." ++ Nat.repr (a / 65536 % 256) ++ "." ++
    Nat.repr (a / 256 % 256) ++ "." ++ Nat.repr (a % 256)

def toHexDigit (n : Nat) : Char :=
  if n < 10 then Char.ofNat (48 + n) else Char.ofNat (87 + n)

/-- One 16-bit group in lowercase hex without leading zeros. -/
def hexGroup (g : Nat) : String :=
  let ds := ([g / 4096 % 16, g / 256 % 16, g / 16 % 16, g % 16]).dropWhile (· = 0)
  ⟨(if ds.isEmpty then [0] else ds).map toHexDigit⟩

/-- Leftmost longest run of zero groups: (start index, length). -/
def bestZeroRun (gs : List Nat) : Nat × Nat :=
  (List.range gs.length).foldl
    (fun best i =>
      let len := ((gs.drop i).takeWhile (fun g => g = 0)).length
      if len > best.2 then (i, len) else best)
    (0, 0)

/-- Render one IPv6 address per RFC 5952 (lowercase hex groups, longest
zero run of length ≥ 2 compressed to `::`, leftmost on ties; the
IPv4-mapped dotted tail form is not modelled). -/
def ipv6ToString (a : Nat) : String :=
  let gs := (List.range 8).map (fun i => a / 2 ^ (16 * (7 - i)) % 65536)
  let run := bestZeroRun gs
  if run.2 ≥ 2 then
    String.intercalate ":" ((gs.take run.1).map hexGroup) ++ "::" ++
      String.intercalate ":" ((gs.drop (run.1 + run.2)).map hexGroup)
  else
    String.intercalate ":" (gs.map hexGroup)

/-- `str(ip)` for an address of the given version. -/
def addrToString (version a : Nat) : String :=
  if version = 4 then ipv4ToString a else ipv6ToString a

/-- `net.__contains__(ip_obj)`: false across versions, else range
membership. -/
def IPNetwork.containsAddr (n : IPNetwork) (version a : Nat) : Bool :=
  n.version = version ∧ n.base ≤ a ∧ a < n.base + n.numAddresses

/-! ## IPAM repository (`src/core/ipam.py`) -/

/-- One IP inventory entry, mirroring `IPAMEntry.__init__`.  `last_seen`
is a `time.time()` reading, modelled as an abstract tick count. -/
structure IPAMEntry where
  ip : String
  subnet : String := ""
  hostname : String := ""
  description : String := ""
  status : String := "Unknown"
  session_name : String := ""
  last_seen : Option Nat := none
  deriving Repr, DecidableEq

/-- A subnet record; `Subnet.__init__` parses and validates the CIDR via
`ipaddress.ip_network(cidr, strict=False)`. -/
structure SubnetR where
  cidr : String
  name : String := ""
  description : String := ""
  network : IPNetwork
  deriving Repr, DecidableEq

/-- `Subnet(cidr, name, description)`: the constructor raises
`ValueError` on a malformed CIDR, modelled as `Except.error`. -/
def subnetInit (cidr name description : String) : Except String SubnetR :=
  match parseNetwork cidr with
  | some net => .ok { cidr := cidr, name := name, description := description, network := net }
  | none => .error "does not appear to be an IPv4 or IPv6 network"

/-- `Subnet.get_ip_range`: all usable addresses as strings.  For IPv4,
`hosts()` drops network and broadcast addresses on prefixes up to /30
and returns every address for /31 and /32; for IPv6 every address of
the block is included. -/
def SubnetR.get_ip_range (sub : SubnetR) : List String :=
  let n := sub.network
  let addrs :=
    if n.version = 4 then
      if n.prefixLen ≥ 31 then (List.range n.numAddresses).map (n.base + ·)
      else (List.range (n.numAddresses - 2)).map (fun i => n.base + 1 + i)
    else (List.range n.numAddresses).map (n.base + ·)
  addrs.map (addrToString n.version)

/-- Round half to even (Python 3 `round`) for a fraction `num/den` with
`den > 0`, here over exact integer arithmetic (the source rounds an
IEEE double). -/
def roundHalfEvenFrac (num den : ℤ) : ℤ :=
  let f := num.ediv den
  let r2 := 2 * (num - f * den)
  if r2 < den then f
  else if den < r2 then f + 1
  else if f % 2 = 0 then f else f + 1

/-- `round(num/den, 2)` as an exact rational. -/
def ratRound2 (num den : ℤ) : ℚ := Rat.divInt (roundHalfEvenFrac (num * 100) den) 100

/-- The record returned by `Subnet.get_usage_stats`. -/
structure UsageStats where
  total : Nat
  used : Nat
  available : Nat
  utilization : ℚ
  deriving Repr, DecidableEq

/-- `Subnet.get_usage_stats(entries)`: only the keys of the entries
dictionary matter (`ip in entries`). -/
def SubnetR.get_usage_stats (sub : SubnetR) (entryKeys : List String) : UsageStats :=
  let total0 := sub.network.numAddresses
  let total := if sub.network.version = 4 ∧ total0 > 2 then total0 - 2 else total0
  let used := (sub.get_ip_range.filter (fun ip => ip ∈ entryKeys)).length
  { total := total
    used := used
    available := total - used
    utilization :=
      if total > 0 then ratRound2 ((used : ℤ) * 100) (total : ℤ) else 0 }

/-- State owned by `IPAMManager`: the two keyed mappings and the two
persisted files (`ip_entries.json`, `subnets.json`). -/
structure IPAMState where
  entries : List (String × IPAMEntry)
  subnets : List (String × SubnetR)
  diskEntries : Option (List IPAMEntry)
  diskSubnets : Option (List SubnetR)
  deriving Repr, DecidableEq

def IPAMState.empty : IPAMState := ⟨[], [], none, none⟩

/-- `save_data`: write both mappings' values to their files. -/
def saveData (st : IPAMState) : IPAMState :=
  { st with diskEntries := some (st.entries.map (·.2))
            diskSubnets := some (st.subnets.map (·.2)) }

/-- `add_subnet`: false (no change) on an already-registered CIDR, else
insert, persist, true. -/
def addSubnet (sub : SubnetR) (st : IPAMState) : IPAMState × Bool :=
  if (dlookup sub.cidr st.subnets).isSome then (st, false)
  else (saveData { st with subnets := dset sub.cidr sub st.subnets }, true)

/-- `remove_subnet`: false if the CIDR is unregistered; otherwise pop
every entry whose `subnet` field equals the CIDR, pop the subnet,
persist, return true. -/
def removeSubnet (cidr : String) (st : IPAMState) : IPAMState × Bool :=
  if (dlookup cidr st.subnets).isSome then
    let toRemove := (st.entries.filter (fun p => p.2.subnet = cidr)).map (·.1)
    let entries' := st.entries.filter (fun p => p.1 ∉ toRemove)
    (saveData { st with entries := entries', subnets := dremove cidr st.subnets }, true)
  else (st, false)

/-- `add_ip_entry`: unconditional upsert under `entry.ip`; no
validation of the address string, always returns true. -/
def addIpEntry (e : IPAMEntry) (st : IPAMState) : IPAMState × Bool :=
  (saveData { st with entries := dset e.ip e st.entries }, true)

/-- `remove_ip_entry`. -/
def removeIpEntry (ip : String) (st : IPAMState) : IPAMState × Bool :=
  if (dlookup ip st.entries).isSome then
    (saveData { st with entries := dremove ip st.entries }, true)
  else (st, false)

/-- `get_entry`. -/
def getEntry (ip : String) (st : IPAMState) : Option IPAMEntry :=
  dlookup ip st.entries

/-- `get_subnet`. -/
def getIpamSubnet (cidr : String) (st : IPAMState) : Option SubnetR :=
  dlookup cidr st.subnets

/-- `find_subnet_for_ip`: parse the address; a `ValueError` is caught
(`except ValueError: pass`) so a malformed string yields `None`;
otherwise return the first registered subnet (storage order) containing
the address. -/
def findSubnetForIp (ip : String) (st : IPAMState) : Option SubnetR :=
  match parseIPAddress ip with
  | some (v, a) => (st.subnets.find? (fun p => p.2.network.containsAddr v a)).map (·.2)
  | none => none

/-- `row.get(key, "")` on a `csv.DictReader` row. -/
def rowField (row : List (String × String)) (k : String) : String :=
  (dlookup k row).getD ""

/-- The result record of `import_from_csv`. -/
structure ImportResult where
  success : Bool
  added_ips : Nat := 0
  added_subnets : Nat := 0
  errors : Nat := 0
  error : Option String := none
  deriving Repr, DecidableEq

/-- Process one CSV row: a row with a non-empty `cidr` field is a subnet
row (a malformed CIDR raises inside the per-row `try`, counted as one
error); otherwise a row with a non-empty `ip` field is an entry row
(`IPAMEntry` construction never validates, `add_ip_entry` always
returns true); any other row is skipped silently. -/
def importRow (acc : IPAMState × Nat × Nat × Nat) (row : List (String × String)) :
    IPAMState × Nat × Nat × Nat :=
  let (st, ips, subs, errs) := acc
  if rowField row "cidr" ≠ "" then
    match subnetInit (rowField row "cidr") (rowField row "name")
        (rowField row "description") with
    | .ok sub =>
      let r := addSubnet sub st
      (r.1, ips, if r.2 then subs + 1 else subs, errs)
    | .error _ => (st, ips, subs, errs + 1)
  else if rowField row "ip" ≠ "" then
    let e : IPAMEntry :=
      { ip := rowField row "ip"
        subnet := rowField row "subnet"
        hostname := rowField row "hostname"
        description := rowField row "description"
        status := if (dlookup "status" row).isSome then rowField row "status"
                  else "Unknown"
        session_name := rowField row "session_name" }
    ((addIpEntry e st).1, ips + 1, subs, errs)
  else (st, ips, subs, errs)

/-- `import_from_csv`: `none` models a file-level read failure (the
outer `try` short-circuits with `{success: False, error}`); otherwise
rows are folded in file order and the counters reported with
`success: True`. -/
def importFromCsv (file : Option (List (List (String × String)))) (st : IPAMState) :
    IPAMState × ImportResult :=
  match file with
  | none => (st, { success := false, error := some "read failure" })
  | some rows =>
    let r := rows.foldl importRow (st, 0, 0, 0)
    (r.1, { success := true, added_ips := r.2.1, added_subnets := r.2.2.1,
            errors := r.2.2.2 })

/-- With duplicate-free keys (a dictionary), an entry key is in the
removal list of `remove_subnet` exactly when its own `subnet` field is
the removed CIDR. -/
theorem filter_not_mem_removed (cidr : String) (entries : List (String × IPAMEntry))
    (hnd : (entries.map Prod.fst).Nodup) :
    entries.filter
      (fun p => p.1 ∉ (entries.filter (fun q => q.2.subnet = cidr)).map (·.1))
      = entries.filter (fun p => ¬ p.2.subnet = cidr) := by
  apply List.filter_congr
  intro p hp
  rw [decide_eq_decide]
  apply not_congr
  constructor
  · intro hmem
    simp only [List.mem_map, List.mem_filter] at hmem
    obtain ⟨q, ⟨hqmem, hqsub⟩, hqkey⟩ := hmem
    have hpq : q = p :=
      List.inj_on_of_nodup_map hnd hqmem hp hqkey
    rw [← hpq]
    exact of_decide_eq_true hqsub
  · intro hsub
    simp only [List.mem_map, List.mem_filter]
    exact ⟨p, ⟨hp, by simp [hsub]⟩, rfl⟩

/-- C4: `remove_subnet(c)` returns false and changes nothing when `c` is
not a registered subnet; otherwise it removes exactly the entries whose
`subnet` field string-equals `c` (entries with a different or empty
`subnet` field survive, whatever their address), removes the subnet,
persists both files, and returns true. -/
theorem remove_subnet_spec (cidr : String) (st : IPAMState)
    (hnd : (st.entries.map Prod.fst).Nodup) :
    (dlookup cidr st.subnets = none → removeSubnet cidr st = (st, false)) ∧
    ((dlookup cidr st.subnets).isSome →
      (removeSubnet cidr st).2 = true ∧
      (removeSubnet cidr st).1.entries =
        st.entries.filter (fun p => ¬ p.2.subnet = cidr) ∧
      (removeSubnet cidr st).1.subnets = dremove cidr st.subnets ∧
      (removeSubnet cidr st).1.diskEntries =
        some ((removeSubnet cidr st).1.entries.map (·.2)) ∧
      (removeSubnet cidr st).1.diskSubnets =
        some ((removeSubnet cidr st).1.subnets.map (·.2))) := by
  constructor
  · intro h
    simp [removeSubnet, h]
  · intro h
    have key := filter_not_mem_removed cidr st.entries hnd
    have hred : removeSubnet cidr st =
        (saveData { st with
          entries := st.entries.filter
            (fun p => p.1 ∉ (st.entries.filter (fun q => q.2.subnet = cidr)).map (·.1))
          subnets := dremove cidr st.subnets }, true) := by
      simp [removeSubnet, h]
    rw [hred, key]
    refine ⟨rfl, rfl, rfl, ?_, ?_⟩ <;> simp [saveData]

/-- Witness for C4: a subnet with one linked entry, one unlinked entry
and one entry of another subnet; only the linked entry is removed, and
the absent-CIDR branch changes nothing. -/
theorem remove_subnet_spec_witness :
    let sub : SubnetR := { cidr := "10.0.0.0/24", network := ⟨4, 167772160, 24⟩ }
    let e₁ : IPAMEntry := { ip := "10.0.0.5", subnet := "10.0.0.0/24" }
    let e₂ : IPAMEntry := { ip := "10.0.0.7" }
    let e₃ : IPAMEntry := { ip := "192.168.0.1", subnet := "192.168.0.0/24" }
    let st : IPAMState :=
      ⟨[("10.0.0.5", e₁), ("10.0.0.7", e₂), ("192.168.0.1", e₃)],
       [("10.0.0.0/24", sub)], none, none⟩
    ((removeSubnet "10.0.0.0/24" st).2 = true ∧
      (removeSubnet "10.0.0.0/24" st).1.entries =
        [("10.0.0.7", e₂), ("192.168.0.1", e₃)]) ∧
    removeSubnet "172.16.0.0/16" st = (st, false) := by
  intro sub e₁ e₂ e₃ st
  have h := remove_subnet_spec "10.0.0.0/24" st (by decide)
  have h2 := (h.2 (by decide))
  refine ⟨⟨h2.1, ?_⟩, ?_⟩
  · exact h2.2.1.trans (by decide)
  · exact (remove_subnet_spec "172.16.0.0/16" st (by decide)).1 (by decide)

/-- Counting the common members from either side. -/
theorem length_filter_mem_comm {α : Type} [DecidableEq α] {l₁ l₂ : List α}
    (h₁ : l₁.Nodup) (h₂ : l₂.Nodup) :
    (l₁.filter (fun x => x ∈ l₂)).length = (l₂.filter (fun x => x ∈ l₁)).length := by
  have e₁ : (l₁.filter (fun x => x ∈ l₂)).Nodup := h₁.filter _
  have e₂ : (l₂.filter (fun x => x ∈ l₁)).Nodup := h₂.filter _
  rw [← List.toFinset_card_of_nodup e₁, ← List.toFinset_card_of_nodup e₂,
    List.toFinset_filter, List.toFinset_filter]
  congr 1
  ext a
  simp only [Finset.mem_filter, List.mem_toFinset, decide_eq_true_eq]
  exact and_comm

/-- For a positive denominator, the integer rounding used in
`get_usage_stats` is exactly round-half-to-even of the true rational
value `num/den`, characterised through `Int.floor`. -/
theorem roundHalfEvenFrac_correct (num : ℤ) (den : ℕ) (h : 0 < den) :
    roundHalfEvenFrac num den =
      (let q : ℚ := (num : ℚ) / (den : ℚ)
       if q - ⌊q⌋ < 1/2 then ⌊q⌋
       else if 1/2 < q - ⌊q⌋ then ⌊q⌋ + 1
       else if ⌊q⌋ % 2 = 0 then ⌊q⌋ else ⌊q⌋ + 1) := by
  have hd0 : (den : ℚ) > 0 := by exact_mod_cast h
  have hfl : ⌊((num : ℚ) / (den : ℚ))⌋ = num.ediv (den : ℤ) := by
    rw [Rat.floor_intCast_div_natCast]
    rfl
  have hfrac : ((num : ℚ) / (den : ℚ)) - (num.ediv (den : ℤ) : ℚ) =
      ((num - num.ediv (den : ℤ) * den : ℤ) : ℚ) / (den : ℚ) := by
    field_simp
    ring
  have hlt : (((num - num.ediv (den : ℤ) * den : ℤ) : ℚ) / (den : ℚ) < 1/2) ↔
      (2 * (num - num.ediv (den : ℤ) * den) < den) := by
    rw [div_lt_div_iff₀ hd0 (by norm_num : (0:ℚ) < 2)]
    rw [show (((num - num.ediv (den : ℤ) * den : ℤ) : ℚ) * 2) =
        ((2 * (num - num.ediv (den : ℤ) * den) : ℤ) : ℚ) by push_cast; ring]
    rw [show ((1 : ℚ) * (den : ℚ)) = (((den : ℕ) : ℤ) : ℚ) by push_cast; ring]
    exact Int.cast_lt
  have hgt : (1/2 < ((num - num.ediv (den : ℤ) * den : ℤ) : ℚ) / (den : ℚ)) ↔
      ((den : ℤ) < 2 * (num - num.ediv (den : ℤ) * den)) := by
    rw [div_lt_div_iff₀ (by norm_num : (0:ℚ) < 2) hd0]
    rw [show (((num - num.ediv (den : ℤ) * den : ℤ) : ℚ) * 2) =
        ((2 * (num - num.ediv (den : ℤ) * den) : ℤ) : ℚ) by push_cast; ring]
    rw [show ((1 : ℚ) * (den : ℚ)) = (((den : ℕ) : ℤ) : ℚ) by push_cast; ring]
    exact Int.cast_lt
  simp only [roundHalfEvenFrac, hfl, hfrac, hlt, hgt]

/-- C3: `usage_stats` returns `total` = the subnet's address count minus
2 for IPv4 blocks with more than 2 addresses and the unmodified count
otherwise (IPv6 blocks included), `used` = the number of registered
entry keys lying in the subnet's usable range, `available` =
`total - used`, and `utilization` = `used/total*100` rounded half-even
to 2 decimals (0 when `total` is 0); in particular for `192.168.1.0/24`
with no registered entries it returns total 254, used 0, utilization 0,
and with 2 entries in range used 2 and utilization 79/100 = 0.79.
(`hr`: distinct usable addresses render to distinct strings; `hk`: the
entries dictionary has no duplicate keys.) -/
theorem usage_stats_spec (sub : SubnetR) (entryKeys : List String)
    (hk : entryKeys.Nodup) (hr : sub.get_ip_range.Nodup) :
    ((sub.get_usage_stats entryKeys).total =
      (if sub.network.version = 4 ∧ sub.network.numAddresses > 2
       then sub.network.numAddresses - 2 else sub.network.numAddresses) ∧
     (sub.get_usage_stats entryKeys).used =
      (entryKeys.filter (fun k => k ∈ sub.get_ip_range)).length ∧
     (sub.get_usage_stats entryKeys).available =
      (sub.get_usage_stats entryKeys).total - (sub.get_usage_stats entryKeys).used ∧
     (sub.get_usage_stats entryKeys).utilization =
      (if 0 < (sub.get_usage_stats entryKeys).total
       then ratRound2 (((sub.get_usage_stats entryKeys).used : ℤ) * 100)
         ((sub.get_usage_stats entryKeys).total : ℤ)
       else 0)) ∧
    (∃ sub24 : SubnetR,
      subnetInit "192.168.1.0/24" "" "" = .ok sub24 ∧
      sub24.get_usage_stats [] = ⟨254, 0, 254, 0⟩ ∧
      sub24.get_usage_stats ["192.168.1.10", "192.168.1.20"] =
        ⟨254, 2, 252, Rat.divInt 79 100⟩ ∧
      Rat.divInt 79 100 = (79 : ℚ) / 100) := by
  constructor
  · refine ⟨rfl, ?_, rfl, rfl⟩
    exact length_filter_mem_comm hr hk
  · refine ⟨{ cidr := "192.168.1.0/24", network := ⟨4, 3232235776, 24⟩ },
      by rfl, by decide, by decide, ?_⟩
    rw [Rat.divInt_eq_div]
    norm_num

/-- Witness for C3 at a small concrete subnet (`10.0.0.0/30`) and a
two-key entry dictionary with one key in range. -/
theorem usage_stats_spec_witness :
    let sub : SubnetR := { cidr := "10.0.0.0/30", network := ⟨4, 167772160, 30⟩ }
    (sub.get_usage_stats ["10.0.0.2", "172.16.0.9"]).used =
      ((["10.0.0.2", "172.16.0.9"] : List String).filter
        (fun k => k ∈ sub.get_ip_range)).length := by
  intro sub
  exact ((usage_stats_spec sub ["10.0.0.2", "172.16.0.9"]
    (by decide) (by decide)).1).2.1

/-- A CSV row is malformed exactly when its `cidr` field is non-empty
but fails to parse (the only raising step inside the per-row `try`). -/
def malformedRow (row : List (String × String)) : Prop :=
  rowField row "cidr" ≠ "" ∧ parseNetwork (rowField row "cidr") = none

instance (row : List (String × String)) : Decidable (malformedRow row) := by
  unfold malformedRow
  infer_instance

/-- Each row adds 1 to the error counter exactly when malformed, and the
fold never aborts. -/
theorem importFold_errors (rows : List (List (String × String))) :
    ∀ (st : IPAMState) (ips subs errs : Nat),
      (rows.foldl importRow (st, ips, subs, errs)).2.2.2 =
        errs + rows.countP (fun row => malformedRow row) := by
  induction rows with
  | nil => intro st ips subs errs; simp [List.countP_nil]
  | cons row rest ih =>
    intro st ips subs errs
    rcases hrow : importRow (st, ips, subs, errs) row with ⟨st', ips', subs', errs'⟩
    rw [List.foldl_cons, hrow, ih st' ips' subs' errs', List.countP_cons]
    have herr : errs' = errs + (if malformedRow row then 1 else 0) := by
      by_cases hc : rowField row "cidr" = ""
      · have hm : ¬ malformedRow row := by simp [malformedRow, hc]
        by_cases hi : rowField row "ip" = ""
        · simp [importRow, hc, hi] at hrow
          simp [hm, hrow.2.2.2]
        · simp [importRow, hc, hi] at hrow
          simp [hm, hrow.2.2.2]
      · cases hpn : parseNetwork (rowField row "cidr") with
        | some net =>
          have hm : ¬ malformedRow row := by simp [malformedRow, hpn]
          simp [importRow, hc, subnetInit, hpn] at hrow
          simp [hm, hrow.2.2.2]
        | none =>
          have hm : malformedRow row := ⟨hc, hpn⟩
          simp [importRow, hc, subnetInit, hpn] at hrow
          simp [hm, hrow.2.2.2]
    rw [herr]
    by_cases hm : malformedRow row <;> simp [hm]
    omega

/-- C5: `import_csv` processes rows in order — a row with a non-empty
`cidr` field is a subnet row, a row with a non-empty `ip` field (and no
non-empty `cidr`) an entry row; every malformed row (non-empty `cidr`
that fails to parse, the only raising step) adds exactly one to the
error counter and is skipped without aborting the import (`success` is
true for every row list); a file-level read failure returns
`{success: false, error}`; and a file with one subnet row, one entry
row and one malformed row yields
`{success: true, added_subnets: 1, added_ips: 1, errors: 1}`. -/
theorem import_csv_spec :
    (∀ st : IPAMState, (importFromCsv none st).2.success = false ∧
      (importFromCsv none st).2.error.isSome) ∧
    (∀ (rows : List (List (String × String))) (st : IPAMState),
      (importFromCsv (some rows) st).2.success = true ∧
      (importFromCsv (some rows) st).2.errors =
        rows.countP (fun row => malformedRow row)) ∧
    (importFromCsv (some
      [[("cidr", "10.0.0.0/24"), ("name", "lab")],
       [("cidr", ""), ("ip", "10.0.0.5"), ("hostname", "h1")],
       [("cidr", "10.0.0.300/24")]]) IPAMState.empty).2 =
      { success := true, added_ips := 1, added_subnets := 1, errors := 1 } := by
  refine ⟨fun st => ⟨rfl, rfl⟩, fun rows st => ⟨rfl, ?_⟩, by decide⟩
  have h := importFold_errors rows st 0 0 0
  simpa [importFromCsv] using h

/-- C8 (amended): the session-name validation failures (empty name,
duplicate name) and a malformed CIDR at `Subnet` construction (the
`add_subnet` path) are surfaced synchronously to the caller as a raised
error; but a malformed IP given to `add_ip_entry` is not validated at
all (the entry is stored and the call returns true), and
`find_subnet_for_ip` catches the parse error internally and returns
`None` instead of raising. -/
theorem validation_errors_spec :
    (∀ (s : Session) (st : SMState), pyStrip s.name = "" →
      ∃ msg, (addSession s st).2 = .error msg) ∧
    (∀ (s : Session) (st : SMState), (dlookup s.name st.sessions).isSome →
      ∃ msg, (addSession s st).2 = .error msg) ∧
    (∀ cidr name description : String, parseNetwork cidr = none →
      ∃ msg, subnetInit cidr name description = .error msg) ∧
    (∀ (e : IPAMEntry) (st : IPAMState), (addIpEntry e st).2 = true) ∧
    (∀ (ip : String) (st : IPAMState), parseIPAddress ip = none →
      findSubnetForIp ip st = none) := by
  refine ⟨?_, ?_, ?_, ?_, ?_⟩
  · intro s st h
    exact ⟨"Session name cannot be empty", by simp [addSession, h]⟩
  · intro s st h
    by_cases hname : pyStrip s.name = ""
    · exact ⟨"Session name cannot be empty", by simp [addSession, hname]⟩
    · exact ⟨"Session with this name already exists", by simp [addSession, hname, h]⟩
  · intro cidr name description h
    exact ⟨"does not appear to be an IPv4 or IPv6 network", by simp [subnetInit, h]⟩
  · intro e st
    rfl
  · intro ip st h
    simp [findSubnetForIp, h]

/-- Counterexample to C8 as stated: on the malformed address
`"999.999.999.999"`, `add_ip_entry` performs no validation — it stores
the entry and returns true — and `find_subnet_for_ip` returns `None`
without raising, even with a catch-all `0.0.0.0/0` subnet registered;
neither call surfaces a ValidationError. -/
theorem validation_errors_counterexample :
    (addIpEntry { ip := "999.999.999.999" } IPAMState.empty).2 = true ∧
    getEntry "999.999.999.999"
      (addIpEntry { ip := "999.999.999.999" } IPAMState.empty).1 =
        some { ip := "999.999.999.999" } ∧
    findSubnetForIp "999.999.999.999"
      ⟨[], [("0.0.0.0/0", { cidr := "0.0.0.0/0", network := ⟨4, 0, 0⟩ })],
       none, none⟩ = none := by
  refine ⟨rfl, by decide, by decide⟩

/-- Witness for C8 (amended) at concrete inputs for each conjunct. -/
theorem validation_errors_spec_witness :
    (∃ msg, (addSession { name := " ", host := "h" } SMState.empty).2 = .error msg) ∧
    (∃ msg, subnetInit "10.0.0.300/24" "" "" = .error msg) ∧
    findSubnetForIp "not-an-ip" IPAMState.empty = none := by
  refine ⟨?_, ?_, ?_⟩
  · exact validation_errors_spec.1 { name := " ", host := "h" } SMState.empty (by decide)
  · exact validation_errors_spec.2.2.1 "10.0.0.300/24" "" "" (by decide)
  · exact validation_errors_spec.2.2.2.2 "not-an-ip" IPAMState.empty (by decide)

/-! ## Subnet scanner concurrency (`scan_subnet`)

The probe loop is modelled as a labelled transition system: the source
starts one worker thread per address in order, and after each start
polls `sum(t.is_alive() for t in threads)` until it drops below 50
before starting the next, so a launch can only happen with fewer than
50 probes in flight (the first launch starts from 0); probes finish at
arbitrary points; the operation returns only after `join()` on every
thread, i.e. with nothing pending and nothing in flight. -/

/-- Scanner state: addresses not yet dispatched, probes in flight, and
whether `scan_subnet` has returned. -/
structure ScanState where
  pending : List String
  inFlight : Nat
  returned : Bool
  deriving Repr, DecidableEq

/-- One scheduler step of the scan loop. -/
inductive ScanStep : ScanState → ScanState → Prop
  | launch {s : ScanState} (ip : String) (rest : List String) :
      s.pending = ip :: rest → s.inFlight < 50 → s.returned = false →
      ScanStep s ⟨rest, s.inFlight + 1, false⟩
  | finish {s : ScanState} (f : Nat) :
      s.inFlight = f + 1 → ScanStep s { s with inFlight := f }
  | ret {s : ScanState} :
      s.pending = [] → s.inFlight = 0 → s.returned = false →
      ScanStep s { s with returned := true }

/-- States reachable by a scan dispatched over the address list `ips`. -/
inductive ScanReach (ips : List String) : ScanState → Prop
  | start : ScanReach ips ⟨ips, 0, false⟩
  | step {s s' : ScanState} : ScanReach ips s → ScanStep s s' → ScanReach ips s'

/-- C9: in every state reachable during a subnet scan at most 50 probes
are in flight — the loop does not launch the next probe until the
in-flight count is below 50 — and in any state where the scan has
returned, every dispatched probe has completed and no address is left
undispatched. -/
theorem scan_concurrency_cap (ips : List String) (s : ScanState)
    (h : ScanReach ips s) :
    s.inFlight ≤ 50 ∧
    (s.returned = true → s.inFlight = 0 ∧ s.pending = []) := by
  induction h with
  | start => exact ⟨by show (0:Nat) ≤ 50; omega, by simp⟩
  | @step t t' _ hs ih =>
    cases hs with
    | launch ip rest hp hf hret =>
      refine ⟨?_, by simp⟩
      show t.inFlight + 1 ≤ 50
      omega
    | finish f hf =>
      have h1 := ih.1
      refine ⟨?_, ?_⟩
      · show f ≤ 50
        omega
      · intro hrt
        have h0 := ih.2 hrt
        rw [hf] at h0
        omega
    | ret hp h0 hret =>
      exact ⟨ih.1, fun _ => ⟨h0, hp⟩⟩

/-- Witness for C9: one launch followed by its completion, then the
invariant read off the resulting state. -/
theorem scan_concurrency_cap_witness :
    (⟨[], 0, false⟩ : ScanState).inFlight ≤ 50 ∧
    ((⟨[], 0, false⟩ : ScanState).returned = true →
      (⟨[], 0, false⟩ : ScanState).inFlight = 0 ∧
      (⟨[], 0, false⟩ : ScanState).pending = []) :=
  scan_concurrency_cap ["10.0.0.1"] ⟨[], 0, false⟩
    (ScanReach.step
      (ScanReach.step ScanReach.start
        (ScanStep.launch "10.0.0.1" [] rfl (by decide) rfl))
      (ScanStep.finish 0 rfl))

end ASSHM
